import Mathlib

/-!
Verification development for the answer-extraction and self-correction
pipeline of the insurance-agent repository (src/data_extractor.py).

The pipeline's pure logic is embedded shallowly:
* Python strings are Lean `String`s; Python character-level operations
  (strip, slicing, startswith/endswith) are modelled on `String.data`.
* The external collaborators (Document Text Provider, LLM Gateway) are
  passed in as functions; the gateway is keyed by the request contents the
  source builds (product name, category, truncated markdown, question list)
  plus the retry attempt number, since those are exactly the inputs that
  vary between gateway calls inside one run.
* `json.loads` is modelled by an executable recursive-descent parser over
  the JSON value grammar (numbers are modelled as integers).
* Fallible code returns `Option`; Python statements that can raise an
  exception that the source does not catch are modelled in `Except String`.
-/

/-- Characters removed by Python `str.strip()` with no argument. -/
def pyWsChar (c : Char) : Bool :=
  c == ' ' || c == '\t' || c == '\n' || c == '\r' || c == '\x0b' || c == '\x0c'

/-- Python `str.strip()`: drop leading and trailing whitespace. -/
def pyStrip (s : String) : String :=
  String.mk (((s.data.dropWhile pyWsChar).reverse.dropWhile pyWsChar).reverse)

/-- Python `str.startswith` for a single string argument. -/
def pyStartsWith (s pat : String) : Bool :=
  pat.data.isPrefixOf s.data

/-- Python `str.endswith` for a single string argument. -/
def pyEndsWith (s pat : String) : Bool :=
  pat.data.isSuffixOf s.data

/-- Python slice `s[:n]`: the first `n` characters of `s`. -/
def pySlice (s : String) (n : Nat) : String :=
  String.mk (s.data.take n)

/-- The response-shape filter of `_call_llm_with_retry`: after trimming, the
text must start/end with a matching brace or bracket pair. -/
def jsonShaped (s : String) : Bool :=
  let t := pyStrip s
  (pyStartsWith t "\x7b" && pyEndsWith t "\x7d") ||
    (pyStartsWith t "[" && pyEndsWith t "]")

/-- MAX_MARKDOWN_CONTEXT_CHARS from src/data_extractor.py. -/
def MAX_MARKDOWN_CONTEXT_CHARS : Nat := 280000

/-- MAX_LLM_RETRIES from src/data_extractor.py. -/
def MAX_LLM_RETRIES : Nat := 3

/-- The literal truncation marker appended by `_truncate_markdown`. -/
def TRUNCATION_MARKER : String := "\n...[DOCUMENT TRUNCATED]"

/-- Embedding of `_truncate_markdown`: truncate the markdown to the character
budget, appending the marker, when it exceeds the limit. -/
def _truncate_markdown (markdown_content : String) (product_name : String) : String :=
  if markdown_content.length > MAX_MARKDOWN_CONTEXT_CHARS then
    pySlice markdown_content MAX_MARKDOWN_CONTEXT_CHARS ++ TRUNCATION_MARKER
  else
    markdown_content

/-- Embedding of `_call_llm_with_retry`, applied to the sequence of gateway
outcomes for the successive attempts.  `none` stands for an exception or a
`None` return from the gateway; an empty string is falsy in Python and is
also retried.  The first non-empty, JSON-shaped response is returned. -/
def _call_llm_with_retry : List (Option String) → Option String
  | [] => none
  | attempt :: rest =>
    match attempt with
    | some response =>
      if response ≠ "" then
        if jsonShaped response then some response
        else _call_llm_with_retry rest
      else _call_llm_with_retry rest
    | none => _call_llm_with_retry rest

/-- JSON values as produced by `json.loads`.  Numbers are modelled as
integers (the claims under verification never depend on float values). -/
inductive Json where
  | null : Json
  | bool : Bool → Json
  | num : Int → Json
  | str : String → Json
  | arr : List Json → Json
  | obj : List (String × Json) → Json

/-- Lookup in a decoded JSON object / Python dict.  Python dicts built from
JSON keep the last value written for a repeated key, so the fold keeps the
last binding. -/
def jsonObjGet (kvs : List (String × Json)) (k : String) : Option Json :=
  kvs.foldl (fun acc kv => if kv.1 == k then some kv.2 else acc) none

/-- Whitespace accepted between JSON tokens. -/
def isJsonWs (c : Char) : Bool :=
  c == ' ' || c == '\t' || c == '\n' || c == '\r'

/-- Skip JSON inter-token whitespace. -/
def skipJsonWs (cs : List Char) : List Char :=
  cs.dropWhile isJsonWs

/-- The table of two-character JSON string escapes. -/
def jsonEscapeTable : List (Char × Char) :=
  [('"', '"'), ('\\', '\\'), ('/', '/'), ('n', '\n'),
   ('t', '\t'), ('r', '\r'), ('b', '\x08'), ('f', '\x0c')]

/-- Translation of a JSON string escape character. -/
def jsonEscapeChar (c : Char) : Option Char :=
  (jsonEscapeTable.find? (fun e => e.1 == c)).map (fun e => e.2)

/-- Parse the body of a JSON string literal (after the opening quote),
returning the decoded characters and the rest of the input. -/
def parseStringBody : Nat → List Char → Option (List Char × List Char)
  | 0, _ => none
  | _, [] => none
  | fuel+1, c :: rest =>
    if c == '"' then some ([], rest)
    else if c == '\\' then
      match rest with
      | [] => none
      | e :: rest2 =>
        match jsonEscapeChar e with
        | some ec => (parseStringBody fuel rest2).map (fun p => (ec :: p.1, p.2))
        | none => none
    else if c.toNat < 32 then none
    else (parseStringBody fuel rest).map (fun p => (c :: p.1, p.2))

/-- Numeric value of a list of decimal digits. -/
def digitsVal (ds : List Char) : Nat :=
  ds.foldl (fun n c => n * 10 + (c.toNat - 48)) 0

/-- Parse a JSON integer (a leading minus sign and decimal digits).  Inputs
with a fraction or exponent are outside the model and are rejected. -/
def parseNumberTail (cs : List Char) : Option (Int × List Char) :=
  let signed := match cs with
    | '-' :: t => (true, t)
    | _ => (false, cs)
  let spanned := signed.2.span Char.isDigit
  if spanned.1.isEmpty then none
  else
    let value : Int := if signed.1 then -(digitsVal spanned.1 : Int) else (digitsVal spanned.1 : Int)
    match spanned.2 with
    | c :: _ => if c == '.' || c == 'e' || c == 'E' then none else some (value, spanned.2)
    | [] => some (value, [])

mutual

/-- Parse one JSON value, returning it and the unconsumed input. -/
def parseJsonValue : Nat → List Char → Option (Json × List Char)
  | 0, _ => none
  | fuel+1, cs =>
    match skipJsonWs cs with
    | [] => none
    | c :: rest =>
      if c == '\x7b' then parseJsonObjRest fuel rest
      else if c == '[' then parseJsonArrRest fuel rest
      else if c == '"' then
        (parseStringBody fuel rest).map (fun p => (Json.str (String.mk p.1), p.2))
      else if c == 't' then
        if ['r', 'u', 'e'].isPrefixOf rest then some (Json.bool true, rest.drop 3) else none
      else if c == 'f' then
        if ['a', 'l', 's', 'e'].isPrefixOf rest then some (Json.bool false, rest.drop 4) else none
      else if c == 'n' then
        if ['u', 'l', 'l'].isPrefixOf rest then some (Json.null, rest.drop 3) else none
      else
        (parseNumberTail (c :: rest)).map (fun p => (Json.num p.1, p.2))

/-- Parse the rest of a JSON object (after the opening brace). -/
def parseJsonObjRest : Nat → List Char → Option (Json × List Char)
  | 0, _ => none
  | fuel+1, cs =>
    match skipJsonWs cs with
    | '\x7d' :: rest => some (Json.obj [], rest)
    | _ => (parseJsonMembers fuel (skipJsonWs cs)).map (fun p => (Json.obj p.1, p.2))

/-- Parse a nonempty comma-separated list of object members, consuming the
closing brace. -/
def parseJsonMembers : Nat → List Char → Option (List (String × Json) × List Char)
  | 0, _ => none
  | fuel+1, cs =>
    match cs with
    | '"' :: rest =>
      match parseStringBody fuel rest with
      | none => none
      | some (key, rest2) =>
        match skipJsonWs rest2 with
        | ':' :: rest3 =>
          match parseJsonValue fuel rest3 with
          | none => none
          | some (v, rest4) =>
            match skipJsonWs rest4 with
            | ',' :: rest5 =>
              (parseJsonMembers fuel (skipJsonWs rest5)).map
                (fun p => ((String.mk key, v) :: p.1, p.2))
            | '\x7d' :: rest5 => some ([(String.mk key, v)], rest5)
            | _ => none
        | _ => none
    | _ => none

/-- Parse the rest of a JSON array (after the opening bracket). -/
def parseJsonArrRest : Nat → List Char → Option (Json × List Char)
  | 0, _ => none
  | fuel+1, cs =>
    match skipJsonWs cs with
    | ']' :: rest => some (Json.arr [], rest)
    | _ => (parseJsonElements fuel (skipJsonWs cs)).map (fun p => (Json.arr p.1, p.2))

/-- Parse a nonempty comma-separated list of array elements, consuming the
closing bracket. -/
def parseJsonElements : Nat → List Char → Option (List Json × List Char)
  | 0, _ => none
  | fuel+1, cs =>
    match parseJsonValue fuel cs with
    | none => none
    | some (v, rest) =>
      match skipJsonWs rest with
      | ',' :: rest2 => (parseJsonElements fuel rest2).map (fun p => (v :: p.1, p.2))
      | ']' :: rest2 => some ([v], rest2)
      | _ => none

end

/-- Model of Python `json.loads`: parse one JSON document, requiring the
whole input to be consumed (up to trailing whitespace). -/
def json_loads (s : String) : Option Json :=
  match parseJsonValue (4 * s.data.length + 16) s.data with
  | some (j, rest) => if (skipJsonWs rest).isEmpty then some j else none
  | none => none

/-- Model of Python `repr` on JSON-decodable values (containers render their
elements with `repr`; string escaping inside `repr` is not modelled). -/
def pyRepr : Json → String
  | Json.null => "None"
  | Json.bool true => "True"
  | Json.bool false => "False"
  | Json.num n => toString n
  | Json.str s => "\x27" ++ s ++ "\x27"
  | Json.arr items =>
    "[" ++ String.intercalate ", " (items.attach.map (fun x => pyRepr x.1)) ++ "]"
  | Json.obj kvs =>
    "\x7b" ++
      String.intercalate ", "
        (kvs.attach.map (fun x => "\x27" ++ x.1.1 ++ "\x27: " ++ pyRepr x.1.2)) ++
      "\x7d"
termination_by j => sizeOf j
decreasing_by
  · have h := List.sizeOf_lt_of_mem x.2
    simp only [Json.arr.sizeOf_spec]
    omega
  · have h := List.sizeOf_lt_of_mem x.2
    obtain ⟨⟨k, v⟩, hm⟩ := x
    simp only [Prod.mk.sizeOf_spec] at h
    simp only [Json.obj.sizeOf_spec]
    omega

/-- Model of Python `str` on JSON-decodable values: the identity on strings,
`repr` on everything else. -/
def pyStr (j : Json) : String :=
  match j with
  | Json.str s => s
  | _ => pyRepr j

/-- The closing delimiter of both code-fence patterns stripped by the source
(`"\n" followed by three backticks`). -/
def fenceClose : List Char := ['\n', '`', '`', '`']

/-- Find the first (non-greedy) occurrence of the fence closer, returning the
characters before it and the input after it. -/
def findCloseFence : List Char → Option (List Char × List Char)
  | [] => none
  | c :: rest =>
    if fenceClose.isPrefixOf (c :: rest) then some ([], (c :: rest).drop 4)
    else (findCloseFence rest).map (fun p => (c :: p.1, p.2))

/-- Model of `re.sub(opening-pattern ++ "(.*?)" ++ closing-pattern, r"\1", s,
flags=re.DOTALL)`: scan left to right; at the leftmost position where the
opening pattern matches and a closer follows, replace the whole match by the
captured middle and continue after it. -/
def subFence (openPat : List Char) : Nat → List Char → List Char
  | 0, cs => cs
  | _, [] => []
  | fuel+1, c :: rest =>
    if openPat.isPrefixOf (c :: rest) then
      match findCloseFence ((c :: rest).drop openPat.length) with
      | some (mid, after) => mid ++ subFence openPat fuel after
      | none => c :: subFence openPat fuel rest
    else c :: subFence openPat fuel rest

/-- The two code-fence-stripping substitutions applied by the source before
`json.loads` (first the "```json" fences, then plain "```" fences). -/
def cleanFences (s : String) : String :=
  let first := subFence ("```json\n".data) s.data.length s.data
  let second := subFence ("```".data) first.length first
  String.mk second

/-- A configured question (data model of the questions configuration). -/
structure Question where
  id : String
  text : String
  applies_to_categories : List String
deriving DecidableEq

/-- The questions configuration supplied to the extractor. -/
structure QuestionsConfig where
  categories : List String
  questions : List Question

/-- One extracted answer, as assembled by `extract_answers_for_product`.
In the source the record is a dict; the `correction_reason` key is absent
(`none`) until `apply_corrections` writes it, and its value is the raw JSON
value taken from the correction dict. -/
structure AnswerRecord where
  question_id : String
  question_text : String
  answer : String
  category : String
  status : String
  correction_reason : Option Json := none

/-- The result dict returned by `extract_answers_for_product`. -/
structure ProductExtractionResult where
  product_name : String
  answers : List AnswerRecord

/-- The varying contents of one extraction gateway call: everything the
source interpolates into the per-category prompts. -/
structure LLMRequest where
  category : String
  product_name : String
  truncated_markdown : String
  prompt_questions : String

/-- An extraction gateway: maps a request and a retry attempt number to the
response text (`none` models an exception, a `None` return, or a timeout). -/
abbrev ExtractionGateway := LLMRequest → Nat → Option String

/-- The questions whose `applies_to_categories` contains the category. -/
def questionsForCategory (all_questions : List Question) (category : String) : List Question :=
  all_questions.filter (fun q => q.applies_to_categories.contains category)

/-- The enumerated `(ID, text)` question list interpolated into the prompt. -/
def promptQuestionsStr (questions : List Question) : String :=
  String.intercalate "\n"
    (questions.enum.map (fun iq =>
      toString (iq.1 + 1) ++ ". (ID: " ++ iq.2.id ++ ") " ++ iq.2.text))

/-- The gateway request built for one category. -/
def categoryRequest (product_name truncated_markdown : String)
    (all_questions : List Question) (category : String) : LLMRequest :=
  { category := category
    product_name := product_name
    truncated_markdown := truncated_markdown
    prompt_questions := promptQuestionsStr (questionsForCategory all_questions category) }

/-- The retried gateway call issued for one request (`MAX_LLM_RETRIES`
attempts). -/
def categoryRetryResult (gw : ExtractionGateway) (req : LLMRequest) : Option String :=
  _call_llm_with_retry ((List.range MAX_LLM_RETRIES).map (gw req))

/-- The record appended when the retried gateway call fails for a category. -/
def errorLLMRecord (q : Question) (category : String) : AnswerRecord :=
  { question_id := q.id
    question_text := q.text
    answer := "Error: LLM extraction failed"
    category := category
    status := "error_llm" }

/-- The record appended when an accepted response fails to parse, or parses
to something other than a JSON object. -/
def errorParsingRecord (q : Question) (category : String) : AnswerRecord :=
  { question_id := q.id
    question_text := q.text
    answer := "Error: Parsing LLM response failed"
    category := category
    status := "error_parsing" }

/-- The record appended in the success branch: the answer is looked up by
question id in the parsed object (with the literal fallback when absent) and
coerced with `str(...)`. -/
def rawRecord (q : Question) (category : String) (answers_json : List (String × Json)) : AnswerRecord :=
  { question_id := q.id
    question_text := q.text
    answer :=
      match jsonObjGet answers_json q.id with
      | some answer_text => pyStr answer_text
      | none => "Answer not found by LLM."
    category := category
    status := "raw" }

/-- The record appended for every question in the unimplemented
non-category-based extraction mode. -/
def notImplementedRecord (q : Question) : AnswerRecord :=
  { question_id := q.id
    question_text := q.text
    answer := "Error: Batch extraction not fully implemented"
    category := String.intercalate ", " q.applies_to_categories
    status := "error_not_implemented" }

/-- The body of one iteration of the per-category extraction loop: the
records appended for this category, and the gateway requests issued. -/
def categoryAnswers (gw : ExtractionGateway) (product_name truncated_markdown : String)
    (all_questions : List Question) (category : String) :
    List AnswerRecord × List LLMRequest :=
  let questions_for_category := questionsForCategory all_questions category
  if questions_for_category.isEmpty then ([], [])
  else
    let req := categoryRequest product_name truncated_markdown all_questions category
    match categoryRetryResult gw req with
    | none => (questions_for_category.map (fun q => errorLLMRecord q category), [req])
    | some response_str =>
      match json_loads (pyStrip (cleanFences response_str)) with
      | some (Json.obj answers_json) =>
        (questions_for_category.map (fun q => rawRecord q category answers_json), [req])
      | some _ => (questions_for_category.map (fun q => errorParsingRecord q category), [req])
      | none => (questions_for_category.map (fun q => errorParsingRecord q category), [req])

/-- Embedding of `extract_answers_for_product`.  The Document Text Provider
(`_get_full_markdown_for_product`) and the LLM Gateway are passed in as
functions.  The second component of the result collects the gateway requests
issued during the run (the source's observable LLM calls). -/
def extract_answers_for_product (getMarkdown : String → Option String)
    (gw : ExtractionGateway) (product_name : String)
    (questions_config : QuestionsConfig) (extract_by_category : Bool := true) :
    Option ProductExtractionResult × List LLMRequest :=
  match getMarkdown product_name with
  | none => (none, [])
  | some product_markdown_full =>
    if product_markdown_full == "" then (none, [])
    else
      let product_markdown_truncated := _truncate_markdown product_markdown_full product_name
      let categories := questions_config.categories
      let all_questions := questions_config.questions
      if categories.isEmpty || all_questions.isEmpty then
        ( some { product_name := product_name, answers := [] }, [])
      else if extract_by_category then
        ( some
            { product_name := product_name
              answers :=
                categories.flatMap (fun category =>
                  (categoryAnswers gw product_name product_markdown_truncated
                    all_questions category).1) },
          categories.flatMap (fun category =>
            (categoryAnswers gw product_name product_markdown_truncated
              all_questions category).2))
      else
        ( some
            { product_name := product_name
              answers := all_questions.map notImplementedRecord },
          [])

/-- The varying contents of the single self-correction gateway call. -/
structure ReviewRequest where
  product_name : String
  truncated_markdown : String
  answers_str : String

/-- A review gateway: maps the review request and a retry attempt number to
the response text. -/
abbrev ReviewGateway := ReviewRequest → Nat → Option String

/-- The serialized answer list interpolated into the self-correction
prompt. -/
def answersStr (extracted_answers : List AnswerRecord) : String :=
  String.intercalate "\n"
    (extracted_answers.enum.map (fun ia =>
      toString (ia.1 + 1) ++ ". Category: " ++ ia.2.category ++
        "\n   Question (ID: " ++ ia.2.question_id ++ "): " ++ ia.2.question_text ++
        "\n   Extracted Answer: " ++ ia.2.answer ++ "\n"))

/-- The four fields a correction item must contain to be kept. -/
def REQUIRED_CORRECTION_FIELDS : List String :=
  ["question_id", "original_answer", "suggested_correction", "reason"]

/-- The validity filter applied to raw correction items:
`isinstance(item, dict) and all(k in item for k in required)`. -/
def isValidCorrectionItem (item : Json) : Bool :=
  match item with
  | Json.obj kvs => REQUIRED_CORRECTION_FIELDS.all (fun k => (jsonObjGet kvs k).isSome)
  | _ => false

/-- Substring test on character lists (Python `needle in haystack` for
strings). -/
def charSubseq (needle : List Char) : List Char → Bool
  | [] => needle.isEmpty
  | c :: t => needle.isPrefixOf (c :: t) || charSubseq needle t

/-- Python membership test `needle in j` for a string needle against a
decoded JSON value.  Dicts test keys, lists test elements, strings test
substrings; every other type raises `TypeError`. -/
def pyContainsStr (j : Json) (needle : String) : Except String Bool :=
  match j with
  | Json.obj kvs => Except.ok (jsonObjGet kvs needle).isSome
  | Json.arr items =>
    Except.ok (items.any (fun it =>
      match it with
      | Json.str s => s == needle
      | _ => false))
  | Json.str s => Except.ok (charSubseq needle.data s.data)
  | _ => Except.error "argument of type is not iterable"

/-- Python subscript `j["key"]` for a string key against a decoded JSON
value.  Only dicts support string subscripts; lists and strings raise
`TypeError`, scalars are not subscriptable. -/
def pySubscriptStr (j : Json) (key : String) : Except String Json :=
  match j with
  | Json.obj kvs =>
    match jsonObjGet kvs key with
    | some v => Except.ok v
    | none => Except.error "KeyError"
  | Json.arr _ => Except.error "list indices must be integers or slices, not str"
  | Json.str _ => Except.error "string indices must be integers"
  | _ => Except.error "object is not subscriptable"

/-- The parse-and-validate branch of `self_correct_answers`, applied to the
decoded response value.  `Except.ok none` models the `ValueError` raised and
caught by the source (a `None` return); `Except.error` models an exception
the source does not catch. -/
def self_correct_parse (review_data : Json) : Except String (Option (List Json)) :=
  match pyContainsStr review_data "corrections" with
  | Except.error e => Except.error e
  | Except.ok mem =>
    if !mem then Except.ok none
    else
      match pySubscriptStr review_data "corrections" with
      | Except.error e => Except.error e
      | Except.ok v =>
        match v with
        | Json.arr corrections_list =>
          Except.ok (some (corrections_list.filter isValidCorrectionItem))
        | _ => Except.ok none

/-- Embedding of `self_correct_answers`.  Returns `Except.ok none` for the
source's `None` (Failure), `Except.ok (some corrections)` for a returned
correction list, and `Except.error` when the source lets an exception escape
to its caller. -/
def self_correct_answers (getMarkdown : String → Option String) (gw : ReviewGateway)
    (product_name : String) (extracted_answers : List AnswerRecord) :
    Except String (Option (List Json)) :=
  match getMarkdown product_name with
  | none => Except.ok none
  | some product_markdown_full =>
    if product_markdown_full == "" then Except.ok none
    else
      let product_markdown_truncated := _truncate_markdown product_markdown_full product_name
      let req : ReviewRequest :=
        { product_name := product_name
          truncated_markdown := product_markdown_truncated
          answers_str := answersStr extracted_answers }
      match _call_llm_with_retry ((List.range MAX_LLM_RETRIES).map (gw req)) with
      | none => Except.ok none
      | some response_str =>
        match json_loads (pyStrip (cleanFences response_str)) with
        | none => Except.ok none
        | some review_data => self_correct_parse review_data

/-- A correction item as handed to `apply_corrections`: a Python dict
decoded from JSON. -/
abbrev CorrectionDict := List (String × Json)

/-- Python `dict.get(k)` on a correction dict (`none` models both an absent
key and Python `None`). -/
def pyDictGet (d : CorrectionDict) (k : String) : Option Json :=
  d.foldl (fun acc kv => if kv.1 == k then some kv.2 else acc) none

/-- Whether an association list contains the key. -/
def assocContains {α : Type} (m : List (String × α)) (k : String) : Bool :=
  m.any (fun e => e.1 == k)

/-- Python dict assignment `m[k] = v`: update the value in place when the
key exists (keeping its position), append otherwise. -/
def dictAssign {α : Type} (m : List (String × α)) (k : String) (v : α) :
    List (String × α) :=
  if assocContains m k then
    m.map (fun e => (e.1, if e.1 == k then v else e.2))
  else m ++ [(k, v)]

/-- Python in-place update of the entry at an existing key. -/
def dictModify {α : Type} (m : List (String × α)) (k : String) (f : α → α) :
    List (String × α) :=
  m.map (fun e => (e.1, if e.1 == k then f e.2 else e.2))

/-- The dict comprehension `{ans["question_id"]: ans.copy() for ans in
original_answers}`. -/
def buildAnswersMap (original_answers : List AnswerRecord) :
    List (String × AnswerRecord) :=
  original_answers.foldl (fun m ans => dictAssign m ans.question_id ans) []

/-- The three field assignments the source performs on the targeted record
when a correction applies. -/
def applyCorrectionFields (r : AnswerRecord) (correction : CorrectionDict) : AnswerRecord :=
  { r with
    answer := pyStr ((pyDictGet correction "suggested_correction").getD Json.null)
    status := "corrected"
    correction_reason :=
      some ((pyDictGet correction "reason").getD (Json.str "No reason provided.")) }

/-- Whether the correction's `question_id` value may be used as a dict key
in Python (lists and dicts are unhashable). -/
def qidHashable (correction : CorrectionDict) : Bool :=
  match pyDictGet correction "question_id" with
  | some (Json.arr _) => false
  | some (Json.obj _) => false
  | _ => true

/-- One iteration of the correction loop: `if q_id in updated_answers_map:`
update the record, else discard.  A list- or dict-valued `question_id` makes
the membership test raise `TypeError` in Python. -/
def correctionStep (m : List (String × AnswerRecord)) (correction : CorrectionDict) :
    Except String (List (String × AnswerRecord)) :=
  match pyDictGet correction "question_id" with
  | some (Json.arr _) => Except.error "unhashable type: list"
  | some (Json.obj _) => Except.error "unhashable type: dict"
  | some (Json.str q_id) =>
    if assocContains m q_id then
      Except.ok (dictModify m q_id (fun r => applyCorrectionFields r correction))
    else Except.ok m
  | _ => Except.ok m

/-- The correction loop of `apply_corrections`. -/
def applyCorrectionsLoop : List (String × AnswerRecord) → List CorrectionDict →
    Except String (List (String × AnswerRecord))
  | m, [] => Except.ok m
  | m, correction :: rest =>
    match correctionStep m correction with
    | Except.ok m2 => applyCorrectionsLoop m2 rest
    | Except.error e => Except.error e

/-- Embedding of `apply_corrections`: build the question-id-keyed map,
apply each correction, and return the map's values. -/
def apply_corrections (original_answers : List AnswerRecord)
    (corrections_list : List CorrectionDict) (product_name : String) :
    Except String (List AnswerRecord) :=
  match applyCorrectionsLoop (buildAnswersMap original_answers) corrections_list with
  | Except.ok m => Except.ok (m.map (fun e => e.2))
  | Except.error e => Except.error e

/-- Compact builder for a `Question` used in concrete instantiations. -/
def mkQuestion (id text : String) (cats : List String) : Question :=
  { id := id, text := text, applies_to_categories := cats }

/-- Compact builder for an `AnswerRecord` with no correction reason, used in
concrete instantiations. -/
def mkRecord (qid qtext ans cat st : String) : AnswerRecord :=
  { question_id := qid, question_text := qtext, answer := ans,
    category := cat, status := st, correction_reason := none }

/-! ### Helper lemmas -/

theorem string_mk_length (l : List Char) : (String.mk l).length = l.length := rfl

theorem string_mk_data (l : List Char) : (String.mk l).data = l := rfl

/-- The question ids of the records a category contributes are exactly the
ids of the questions selected for that category, in every branch of the
per-category loop. -/
theorem categoryAnswers_fst_map_id (gw : ExtractionGateway) (pn tmd : String)
    (qs : List Question) (c : String) :
    (categoryAnswers gw pn tmd qs c).1.map (fun a => a.question_id) =
      (questionsForCategory qs c).map (fun q => q.id) := by
  unfold categoryAnswers
  by_cases hempty : (questionsForCategory qs c).isEmpty
  · simp [hempty, List.isEmpty_iff.mp hempty]
  · simp only [hempty, Bool.false_eq_true, if_false]
    cases hr : categoryRetryResult gw (categoryRequest pn tmd qs c) with
    | none => simp [List.map_map, Function.comp, errorLLMRecord]
    | some s =>
      cases hj : json_loads (pyStrip (cleanFences s)) with
      | none => simp [hj, List.map_map, Function.comp, errorParsingRecord]
      | some j =>
        cases j <;> simp [hj, List.map_map, Function.comp, errorParsingRecord, rawRecord]

/-- When the input is present and the configuration is nonempty, the answer
list of a by-category extraction is the concatenation of the per-category
contributions. -/
theorem extract_answers_eq_flatMap (getMarkdown : String → Option String)
    (gw : ExtractionGateway) (pn : String) (cfg : QuestionsConfig) (md : String)
    (res : ProductExtractionResult)
    (hmd : getMarkdown pn = some md)
    (hcne : cfg.categories.isEmpty = false)
    (hqne : cfg.questions.isEmpty = false)
    (hres : (extract_answers_for_product getMarkdown gw pn cfg true).1 = some res) :
    res.answers = cfg.categories.flatMap (fun category =>
      (categoryAnswers gw pn (_truncate_markdown md pn) cfg.questions category).1) := by
  unfold extract_answers_for_product at hres
  rw [hmd] at hres
  by_cases he : md == ""
  · simp [he] at hres
  · simp only [he, Bool.false_eq_true, if_false, hcne, hqne, Bool.or_self, if_true] at hres
    cases hres
    rfl

/-! ### Claim C4: context truncation -/

/-- Claim C4: `_truncate_markdown` is pure; text within the limit is
returned unchanged, longer text is cut to the first
`MAX_MARKDOWN_CONTEXT_CHARS` characters followed by the literal marker,
giving a string of length limit + marker length that ends in the marker. -/
theorem truncate_markdown_behavior (text product_name : String) :
    (text.length ≤ MAX_MARKDOWN_CONTEXT_CHARS →
      _truncate_markdown text product_name = text) ∧
    (MAX_MARKDOWN_CONTEXT_CHARS < text.length →
      _truncate_markdown text product_name =
          String.mk (text.data.take MAX_MARKDOWN_CONTEXT_CHARS) ++ TRUNCATION_MARKER ∧
        (_truncate_markdown text product_name).length =
          MAX_MARKDOWN_CONTEXT_CHARS + TRUNCATION_MARKER.length ∧
        (_truncate_markdown text product_name).data.drop MAX_MARKDOWN_CONTEXT_CHARS =
          TRUNCATION_MARKER.data) := by
  have hdata : text.length = text.data.length := rfl
  constructor
  · intro h
    unfold _truncate_markdown
    rw [if_neg (by omega)]
  · intro h
    have htr : _truncate_markdown text product_name =
        String.mk (text.data.take MAX_MARKDOWN_CONTEXT_CHARS) ++ TRUNCATION_MARKER := by
      unfold _truncate_markdown pySlice
      rw [if_pos (by omega)]
    refine ⟨htr, ?_, ?_⟩
    · rw [htr, String.length_append, string_mk_length, List.length_take]
      omega
    · rw [htr, String.data_append, string_mk_data]
      have hlen : (text.data.take MAX_MARKDOWN_CONTEXT_CHARS).length =
          MAX_MARKDOWN_CONTEXT_CHARS := by
        rw [List.length_take]
        omega
      nth_rewrite 1 [← hlen]
      exact List.drop_left _ _

/-- Witness for C4 at a short input and at an input one character over the
limit. -/
theorem truncate_markdown_behavior_witness :
    _truncate_markdown "short text" "p" = "short text" ∧
    (_truncate_markdown (String.mk (List.replicate 280001 'a')) "p").length =
      MAX_MARKDOWN_CONTEXT_CHARS + TRUNCATION_MARKER.length :=
  ⟨(truncate_markdown_behavior "short text" "p").1 (by decide),
   ((truncate_markdown_behavior (String.mk (List.replicate 280001 'a')) "p").2
     (by rw [string_mk_length, List.length_replicate]; decide)).2.1⟩

/-! ### Claim C5: absent document text -/

/-- Claim C5: when the Document Text Provider returns no content for the
product, extraction returns Failure, issues no gateway call, and produces no
records. -/
theorem extract_fails_without_markdown (getMarkdown : String → Option String)
    (gw : ExtractionGateway) (product_name : String)
    (questions_config : QuestionsConfig) (extract_by_category : Bool)
    (h : getMarkdown product_name = none) :
    extract_answers_for_product getMarkdown gw product_name questions_config
      extract_by_category = (none, []) := by
  unfold extract_answers_for_product
  rw [h]

/-- Witness for C5 at a provider with no content. -/
theorem extract_fails_without_markdown_witness :
    ((fun _ : String => (none : Option String)) "P" = none) ∧
    extract_answers_for_product (fun _ => none) (fun _ _ => none) "P"
      { categories := ["A"], questions := [] } true = (none, []) :=
  ⟨rfl, extract_fails_without_markdown (fun _ => none) (fun _ _ => none) "P"
    { categories := ["A"], questions := [] } true rfl⟩

/-! ### Claim C3: self-correction never lets an exception escape -/

/-- Claim C3 (refuted; the code diverges from the spec's propagation
policy): the gateway response `["corrections"]` is accepted by the retrying
JSON caller and decodes to a JSON array containing the string
"corrections", so the Python membership test succeeds and
`review_data["corrections"]` raises a `TypeError` that the
`except (json.JSONDecodeError, ValueError)` clause does not catch: the
exception escapes to the caller instead of a Failure return. -/
theorem self_correct_uncaught_type_error :
    self_correct_answers (fun _ => some "policy text")
      (fun _ _ => some "[\"corrections\"]") "ProductA" [] =
    Except.error "list indices must be integers or slices, not str" := rfl

/-! ### Claim C1: at most one record per question id -/

/-- Counterexample to C1 as stated: a question whose
`applies_to_categories` names two configured categories is selected in both
per-category passes, so its `question_id` appears twice in the assembled
answer list. -/
theorem extract_duplicate_question_id_counterexample :
    ¬ (((extract_answers_for_product (fun _ => some "doc") (fun _ _ => none) "P"
          { categories := ["A", "B"],
            questions := [{ id := "q1", text := "t1", applies_to_categories := ["A", "B"] }] }
          true).1.getD { product_name := "P", answers := [] }).answers.map
        (fun a => a.question_id)).Nodup := by
  decide

/-- Two distinct members force a list length of at least two. -/
theorem two_le_length_of_mem_ne {α : Type} {a b : α} {l : List α}
    (ha : a ∈ l) (hb : b ∈ l) (hab : a ≠ b) : 2 ≤ l.length := by
  match l with
  | [] => cases ha
  | [x] =>
    rw [List.mem_singleton] at ha hb
    exact absurd (ha.trans hb.symm) hab
  | x :: y :: t => simp [List.length_cons]

/-- Claim C1, amended: the answer list of a by-category extraction has at
most one record per question id provided the configured question ids are
distinct, the configured categories are distinct, and every question's
`applies_to_categories` matches at most one configured category. -/
theorem extract_answers_unique_ids (getMarkdown : String → Option String)
    (gw : ExtractionGateway) (product_name : String) (cfg : QuestionsConfig)
    (hq : (cfg.questions.map (fun q => q.id)).Nodup)
    (hc : cfg.categories.Nodup)
    (hone : ∀ q ∈ cfg.questions,
      (cfg.categories.filter (fun c => q.applies_to_categories.contains c)).length ≤ 1)
    (res : ProductExtractionResult)
    (hres : (extract_answers_for_product getMarkdown gw product_name cfg true).1 = some res) :
    (res.answers.map (fun a => a.question_id)).Nodup := by
  unfold extract_answers_for_product at hres
  cases hmd : getMarkdown product_name with
  | none => rw [hmd] at hres; simp at hres
  | some md =>
    rw [hmd] at hres
    by_cases he : md == ""
    · simp [he] at hres
    · simp only [he, Bool.false_eq_true, if_false] at hres
      by_cases hcats : cfg.categories.isEmpty
      · simp [hcats] at hres
        cases hres
        simp
      · by_cases hqs : cfg.questions.isEmpty
        · simp [hcats, hqs] at hres
          cases hres
          simp
        · have hflat : res.answers = cfg.categories.flatMap (fun category =>
              (categoryAnswers gw product_name (_truncate_markdown md product_name)
                cfg.questions category).1) := by
            simp only [Bool.not_eq_true] at hcats hqs
            simp only [hcats, hqs, Bool.or_self, if_false, Bool.false_eq_true, if_true] at hres
            cases hres
            rfl
          rw [hflat, List.map_flatMap]
          have hids : ∀ c, ((categoryAnswers gw product_name
              (_truncate_markdown md product_name) cfg.questions c).1.map
                (fun a => a.question_id)) =
              (questionsForCategory cfg.questions c).map (fun q => q.id) := fun c =>
            categoryAnswers_fst_map_id gw product_name (_truncate_markdown md product_name)
              cfg.questions c
          simp only [hids]
          refine List.nodup_flatMap.mpr ⟨?_, ?_⟩
          · intro c _
            exact ((List.filter_sublist cfg.questions).map (fun q => q.id)).nodup hq
          · refine List.Pairwise.imp_of_mem ?_ hc
            intro c1 c2 hc1 hc2 hne x hx1 hx2
            obtain ⟨q1, hq1, hq1x⟩ := List.mem_map.mp hx1
            obtain ⟨q2, hq2, hq2x⟩ := List.mem_map.mp hx2
            obtain ⟨hq1m, hq1c⟩ := List.mem_filter.mp hq1
            obtain ⟨hq2m, hq2c⟩ := List.mem_filter.mp hq2
            have hqeq : q1 = q2 :=
              List.inj_on_of_nodup_map hq hq1m hq2m (hq1x.trans hq2x.symm)
            subst hqeq
            have hmem1 : c1 ∈ cfg.categories.filter
                (fun c => q1.applies_to_categories.contains c) :=
              List.mem_filter.mpr ⟨hc1, hq1c⟩
            have hmem2 : c2 ∈ cfg.categories.filter
                (fun c => q1.applies_to_categories.contains c) :=
              List.mem_filter.mpr ⟨hc2, hq2c⟩
            have := two_le_length_of_mem_ne hmem1 hmem2 hne
            have := hone q1 hq1m
            omega

/-- Witness for the amended C1 at a one-question configuration. -/
theorem extract_answers_unique_ids_witness :
    (([mkQuestion "q1" "t1" ["A"]].map (fun q => q.id)).Nodup ∧
      (["A"] : List String).Nodup ∧
      (∀ q ∈ [mkQuestion "q1" "t1" ["A"]],
        ((["A"] : List String).filter
          (fun c => q.applies_to_categories.contains c)).length ≤ 1)) ∧
    (({ product_name := "P",
        answers := [mkRecord "q1" "t1" "Error: LLM extraction failed" "A" "error_llm"] } :
        ProductExtractionResult).answers.map (fun a => a.question_id)).Nodup :=
  ⟨⟨by decide, by decide, by decide⟩,
   extract_answers_unique_ids (fun _ => some "doc") (fun _ _ => none) "P"
     { categories := ["A"], questions := [mkQuestion "q1" "t1" ["A"]] }
     (by decide) (by decide) (by decide)
     { product_name := "P",
       answers := [mkRecord "q1" "t1" "Error: LLM extraction failed" "A" "error_llm"] }
     rfl⟩

/-! ### Claim C2: applying an empty correction list -/

/-- Counterexample to C2 as stated: an original list with two records
sharing a question id collapses to a single record when the id-keyed map is
built, so the output of `apply_corrections` with an empty correction list is
not multiset-equal to the original. -/
theorem apply_corrections_empty_counterexample :
    apply_corrections
        [mkRecord "q1" "t" "a1" "c" "raw", mkRecord "q1" "t" "a2" "c" "raw"] [] "P" =
      Except.ok [mkRecord "q1" "t" "a2" "c" "raw"] ∧
    ¬ ([mkRecord "q1" "t" "a2" "c" "raw"] : List AnswerRecord).Perm
        [mkRecord "q1" "t" "a1" "c" "raw", mkRecord "q1" "t" "a2" "c" "raw"] := by
  constructor
  · rfl
  · intro hperm
    have := hperm.length_eq
    simp at this

/-- Folding the dict comprehension over records whose ids are fresh for the
accumulator appends one entry per record. -/
theorem buildAnswersMap_foldl_fresh (l : List AnswerRecord) :
    ∀ acc : List (String × AnswerRecord),
      (l.map (fun r => r.question_id)).Nodup →
      (∀ r ∈ l, assocContains acc r.question_id = false) →
      l.foldl (fun m ans => dictAssign m ans.question_id ans) acc =
        acc ++ l.map (fun r => (r.question_id, r)) := by
  induction l with
  | nil => intro acc _ _; simp
  | cons a t ih =>
    intro acc hnodup hfresh
    simp only [List.foldl_cons]
    have hnew : assocContains acc a.question_id = false := hfresh a (List.mem_cons_self a t)
    have hassign : dictAssign acc a.question_id a = acc ++ [(a.question_id, a)] := by
      unfold dictAssign
      rw [hnew]
      simp
    rw [hassign]
    simp only [List.map_cons, List.nodup_cons] at hnodup
    have hfresh2 : ∀ r ∈ t, assocContains (acc ++ [(a.question_id, a)]) r.question_id = false := by
      intro r hr
      unfold assocContains
      rw [List.any_append]
      have h1 : acc.any (fun e => e.1 == r.question_id) = false := hfresh r (List.mem_cons_of_mem a hr)
      have h2 : a.question_id ≠ r.question_id := by
        intro heq
        exact hnodup.1 (heq ▸ List.mem_map_of_mem (fun r => r.question_id) hr)
      simp [h1, h2]
    rw [ih (acc ++ [(a.question_id, a)]) hnodup.2 hfresh2]
    simp

/-- With pairwise-distinct ids the dict comprehension pairs each record with
its id, in order. -/
theorem buildAnswersMap_eq_of_nodup (l : List AnswerRecord)
    (h : (l.map (fun r => r.question_id)).Nodup) :
    buildAnswersMap l = l.map (fun r => (r.question_id, r)) := by
  have hfold := buildAnswersMap_foldl_fresh l [] h (fun r _ => rfl)
  simpa [buildAnswersMap] using hfold

/-- Claim C2, amended: for an original list whose question ids are pairwise
distinct, applying an empty correction list returns the original records
unchanged (and in the original order). -/
theorem apply_corrections_empty_of_nodup (original : List AnswerRecord)
    (product_name : String)
    (h : (original.map (fun r => r.question_id)).Nodup) :
    apply_corrections original [] product_name = Except.ok original := by
  unfold apply_corrections applyCorrectionsLoop
  rw [buildAnswersMap_eq_of_nodup original h]
  simp only [List.map_map]
  exact congrArg Except.ok (List.map_id original)

/-- Witness for the amended C2 at a two-record original with distinct
ids. -/
theorem apply_corrections_empty_of_nodup_witness :
    (([mkRecord "q1" "t" "a1" "c" "raw", mkRecord "q2" "t" "a2" "c" "raw"] :
        List AnswerRecord).map (fun r => r.question_id)).Nodup ∧
    apply_corrections
        [mkRecord "q1" "t" "a1" "c" "raw", mkRecord "q2" "t" "a2" "c" "raw"] [] "P" =
      Except.ok [mkRecord "q1" "t" "a1" "c" "raw", mkRecord "q2" "t" "a2" "c" "raw"] :=
  ⟨by decide,
   apply_corrections_empty_of_nodup
     [mkRecord "q1" "t" "a1" "c" "raw", mkRecord "q2" "t" "a2" "c" "raw"] "P" (by decide)⟩

/-! ### Claim C6: success branch of a category -/

/-- In the success branch (accepted response parsing to a JSON object) a
category contributes exactly one raw record per selected question. -/
theorem categoryAnswers_of_success (gw : ExtractionGateway) (pn tmd : String)
    (qs : List Question) (c s : String) (kvs : List (String × Json))
    (hne : (questionsForCategory qs c).isEmpty = false)
    (hr : categoryRetryResult gw (categoryRequest pn tmd qs c) = some s)
    (hj : json_loads (pyStrip (cleanFences s)) = some (Json.obj kvs)) :
    (categoryAnswers gw pn tmd qs c).1 =
      (questionsForCategory qs c).map (fun q => rawRecord q c kvs) := by
  unfold categoryAnswers
  simp [hne, hr, hj]

/-- In the failure branch (retries exhausted) a category contributes exactly
one error record per selected question. -/
theorem categoryAnswers_of_failure (gw : ExtractionGateway) (pn tmd : String)
    (qs : List Question) (c : String)
    (hne : (questionsForCategory qs c).isEmpty = false)
    (hr : categoryRetryResult gw (categoryRequest pn tmd qs c) = none) :
    (categoryAnswers gw pn tmd qs c).1 =
      (questionsForCategory qs c).map (fun q => errorLLMRecord q c) := by
  unfold categoryAnswers
  simp [hne, hr]

/-- Claim C6: when a category's retried gateway call is accepted and the
cleaned response parses to a JSON object, every question selected for that
category yields a `status=raw` record whose answer is the string value
mapped to its id, and the literal fallback when its id is absent. -/
theorem extract_raw_answers_of_object_response (getMarkdown : String → Option String)
    (gw : ExtractionGateway) (product_name md : String) (cfg : QuestionsConfig)
    (category s : String) (kvs : List (String × Json)) (q : Question)
    (res : ProductExtractionResult)
    (hmd : getMarkdown product_name = some md)
    (hcat : category ∈ cfg.categories)
    (hq : q ∈ questionsForCategory cfg.questions category)
    (hr : categoryRetryResult gw (categoryRequest product_name
        (_truncate_markdown md product_name) cfg.questions category) = some s)
    (hj : json_loads (pyStrip (cleanFences s)) = some (Json.obj kvs))
    (hres : (extract_answers_for_product getMarkdown gw product_name cfg true).1 = some res) :
    (∀ v, jsonObjGet kvs q.id = some (Json.str v) →
      mkRecord q.id q.text v category "raw" ∈ res.answers) ∧
    (jsonObjGet kvs q.id = none →
      mkRecord q.id q.text "Answer not found by LLM." category "raw" ∈ res.answers) := by
  have hcne : cfg.categories.isEmpty = false := by
    cases h' : cfg.categories.isEmpty
    · rfl
    · exact absurd (List.isEmpty_iff.mp h' ▸ hcat) (List.not_mem_nil _)
  have hqmem : q ∈ cfg.questions := by
    have hq' := hq
    simp only [questionsForCategory] at hq'
    exact (List.mem_filter.mp hq').1
  have hqne : cfg.questions.isEmpty = false := by
    cases h' : cfg.questions.isEmpty
    · rfl
    · exact absurd (List.isEmpty_iff.mp h' ▸ hqmem) (List.not_mem_nil _)
  have hne : (questionsForCategory cfg.questions category).isEmpty = false := by
    cases h' : (questionsForCategory cfg.questions category).isEmpty
    · rfl
    · exact absurd (List.isEmpty_iff.mp h' ▸ hq) (List.not_mem_nil _)
  have hflat := extract_answers_eq_flatMap getMarkdown gw product_name cfg md res hmd
    hcne hqne hres
  have hcatAns := categoryAnswers_of_success gw product_name
    (_truncate_markdown md product_name) cfg.questions category s kvs hne hr hj
  constructor
  · intro v hv
    rw [hflat]
    refine List.mem_flatMap.mpr ⟨category, hcat, ?_⟩
    rw [hcatAns]
    refine List.mem_map.mpr ⟨q, hq, ?_⟩
    simp [rawRecord, mkRecord, hv, pyStr]
  · intro hnone
    rw [hflat]
    refine List.mem_flatMap.mpr ⟨category, hcat, ?_⟩
    rw [hcatAns]
    refine List.mem_map.mpr ⟨q, hq, ?_⟩
    simp [rawRecord, mkRecord, hnone]

/-- Witness for C6 at a one-category configuration whose gateway returns a
valid JSON object on the first attempt. -/
theorem extract_raw_answers_of_object_response_witness :
    json_loads (pyStrip (cleanFences "\x7b\"q1\": \"yes\"\x7d")) =
        some (Json.obj [("q1", Json.str "yes")]) ∧
    mkRecord "q1" "t1" "yes" "A" "raw" ∈
      ({ product_name := "P", answers := [mkRecord "q1" "t1" "yes" "A" "raw"] } :
        ProductExtractionResult).answers :=
  ⟨rfl,
   (extract_raw_answers_of_object_response (fun _ => some "md text")
     (fun _ _ => some "\x7b\"q1\": \"yes\"\x7d") "P" "md text"
     { categories := ["A"], questions := [mkQuestion "q1" "t1" ["A"]] }
     "A" "\x7b\"q1\": \"yes\"\x7d" [("q1", Json.str "yes")] (mkQuestion "q1" "t1" ["A"])
     { product_name := "P", answers := [mkRecord "q1" "t1" "yes" "A" "raw"] }
     rfl (by decide) (by decide) rfl rfl rfl).1 "yes" rfl⟩

/-! ### Claim C7: retry exhaustion is contained to its category -/

/-- When every attempt is rejected by the shape filter (or absent), the
retrying caller returns Failure. -/
theorem call_llm_with_retry_none (attempts : List (Option String))
    (h : ∀ o ∈ attempts, ∀ t, o = some t → jsonShaped t = false) :
    _call_llm_with_retry attempts = none := by
  induction attempts with
  | nil => rfl
  | cons a rest ih =>
    have hrest : ∀ o ∈ rest, ∀ t, o = some t → jsonShaped t = false :=
      fun o ho => h o (List.mem_cons_of_mem a ho)
    cases a with
    | none => simpa [_call_llm_with_retry] using ih hrest
    | some t =>
      have ht : jsonShaped t = false := h (some t) (List.mem_cons_self _ _) t rfl
      by_cases hempty : t = ""
      · subst hempty
        simpa [_call_llm_with_retry] using ih hrest
      · simp only [_call_llm_with_retry, ht, ne_eq, hempty, not_false_eq_true, if_true,
          Bool.false_eq_true, if_false]
        exact ih hrest

/-- A category's contribution depends on the gateway only through the
request built for that category. -/
theorem categoryAnswers_gateway_congr (gw gw' : ExtractionGateway) (pn tmd : String)
    (qs : List Question) (c : String)
    (hagree : ∀ n, gw' (categoryRequest pn tmd qs c) n = gw (categoryRequest pn tmd qs c) n) :
    categoryAnswers gw' pn tmd qs c = categoryAnswers gw pn tmd qs c := by
  have hmap : (List.range MAX_LLM_RETRIES).map (gw' (categoryRequest pn tmd qs c)) =
      (List.range MAX_LLM_RETRIES).map (gw (categoryRequest pn tmd qs c)) :=
    List.map_congr_left (fun n _ => hagree n)
  simp only [categoryAnswers, categoryRetryResult]
  rw [hmap]

/-- Claim C7: if the gateway returns non-JSON-shaped text on every retry
attempt for one category, every question selected for that category receives
an `error_llm` record with the sentinel answer, and the contribution of
every other category is unaffected (it depends only on the gateway's
behavior on that other category's request). -/
theorem extract_error_llm_isolated (getMarkdown : String → Option String)
    (gw : ExtractionGateway) (product_name md : String) (cfg : QuestionsConfig)
    (category : String) (res : ProductExtractionResult)
    (hmd : getMarkdown product_name = some md)
    (hcat : category ∈ cfg.categories)
    (hqne : cfg.questions.isEmpty = false)
    (hfail : ∀ n, n < MAX_LLM_RETRIES →
      ∀ t, gw (categoryRequest product_name (_truncate_markdown md product_name)
          cfg.questions category) n = some t → jsonShaped t = false)
    (hres : (extract_answers_for_product getMarkdown gw product_name cfg true).1 = some res) :
    (∀ q ∈ questionsForCategory cfg.questions category,
      mkRecord q.id q.text "Error: LLM extraction failed" category "error_llm" ∈ res.answers) ∧
    (∀ gw' : ExtractionGateway,
      (∀ r n, r.category ≠ category → gw' r n = gw r n) →
      ∀ c2, c2 ≠ category →
        categoryAnswers gw' product_name (_truncate_markdown md product_name) cfg.questions c2 =
          categoryAnswers gw product_name (_truncate_markdown md product_name) cfg.questions c2) := by
  have hcne : cfg.categories.isEmpty = false := by
    cases h' : cfg.categories.isEmpty
    · rfl
    · exact absurd (List.isEmpty_iff.mp h' ▸ hcat) (List.not_mem_nil _)
  have hflat := extract_answers_eq_flatMap getMarkdown gw product_name cfg md res hmd
    hcne hqne hres
  have hretry : categoryRetryResult gw (categoryRequest product_name
      (_truncate_markdown md product_name) cfg.questions category) = none := by
    unfold categoryRetryResult
    apply call_llm_with_retry_none
    intro o ho t hot
    obtain ⟨n, hn, rfl⟩ := List.mem_map.mp ho
    exact hfail n (List.mem_range.mp hn) t hot
  constructor
  · intro q hq
    have hne : (questionsForCategory cfg.questions category).isEmpty = false := by
      cases h' : (questionsForCategory cfg.questions category).isEmpty
      · rfl
      · exact absurd (List.isEmpty_iff.mp h' ▸ hq) (List.not_mem_nil _)
    rw [hflat]
    refine List.mem_flatMap.mpr ⟨category, hcat, ?_⟩
    rw [categoryAnswers_of_failure gw product_name (_truncate_markdown md product_name)
      cfg.questions category hne hretry]
    refine List.mem_map.mpr ⟨q, hq, ?_⟩
    simp [errorLLMRecord, mkRecord]
  · intro gw' hagree c2 hc2
    exact categoryAnswers_gateway_congr gw gw' product_name
      (_truncate_markdown md product_name) cfg.questions c2
      (fun n => hagree (categoryRequest product_name
        (_truncate_markdown md product_name) cfg.questions c2) n hc2)

/-- Witness for C7 at a two-category configuration where category A's
gateway always answers non-JSON text and category B parses fine. -/
theorem extract_error_llm_isolated_witness :
    (("A" : String) ∈ ["A", "B"]) ∧
    mkRecord "q1" "t1" "Error: LLM extraction failed" "A" "error_llm" ∈
      ({ product_name := "P",
         answers := [mkRecord "q1" "t1" "Error: LLM extraction failed" "A" "error_llm",
           mkRecord "q2" "t2" "Answer not found by LLM." "B" "raw"] } :
        ProductExtractionResult).answers :=
  ⟨by decide,
   (extract_error_llm_isolated (fun _ => some "md")
     (fun r _ => if r.category == "A" then some "not json" else some "\x7b\x7d")
     "P" "md"
     { categories := ["A", "B"],
       questions := [mkQuestion "q1" "t1" ["A"], mkQuestion "q2" "t2" ["B"]] }
     "A"
     { product_name := "P",
       answers := [mkRecord "q1" "t1" "Error: LLM extraction failed" "A" "error_llm",
         mkRecord "q2" "t2" "Answer not found by LLM." "B" "raw"] }
     rfl (by decide) (by decide)
     (by
       intro n _ t ht
       injection ht with h
       rw [← h]
       decide)
     rfl).1 (mkQuestion "q1" "t1" ["A"]) (by decide)⟩

/-! ### Machinery for the correction-application claims -/

/-- Whether a correction dict targets the map key `k` (its `question_id`
value is the string `k`). -/
def corrMatchesKey (correction : CorrectionDict) (k : String) : Bool :=
  match pyDictGet correction "question_id" with
  | some (Json.str s) => k == s
  | _ => false

/-- The effect of one correction on the entry stored at key `k`. -/
def entryCorrectionStep (correction : CorrectionDict) (k : String) (r : AnswerRecord) :
    AnswerRecord :=
  if corrMatchesKey correction k then applyCorrectionFields r correction else r

/-- The effect of a whole correction list on the entry stored at key `k`. -/
def entryCorrectionFold (cs : List CorrectionDict) (k : String) (r : AnswerRecord) :
    AnswerRecord :=
  cs.foldl (fun acc correction => entryCorrectionStep correction k acc) r

/-- The last correction in the list that targets key `k`, if any. -/
def lastMatchingCorrection (cs : List CorrectionDict) (k : String) : Option CorrectionDict :=
  cs.foldl (fun acc correction => if corrMatchesKey correction k then some correction else acc)
    none

theorem applyCorrectionFields_overwrite (r : AnswerRecord) (c1 c2 : CorrectionDict) :
    applyCorrectionFields (applyCorrectionFields r c1) c2 = applyCorrectionFields r c2 := rfl

theorem applyCorrectionFields_question_id (r : AnswerRecord) (c : CorrectionDict) :
    (applyCorrectionFields r c).question_id = r.question_id := rfl

/-- A hashable correction acts on the map entrywise. -/
theorem correctionStep_ok (m : List (String × AnswerRecord)) (correction : CorrectionDict)
    (h : qidHashable correction = true) :
    correctionStep m correction =
      Except.ok (m.map (fun e => (e.1, entryCorrectionStep correction e.1 e.2))) := by
  unfold correctionStep
  cases hq : pyDictGet correction "question_id" with
  | none =>
    simp only [entryCorrectionStep, corrMatchesKey, hq, if_false, Bool.false_eq_true]
    exact congrArg Except.ok (List.map_id m).symm
  | some j =>
    cases j with
    | null =>
      simp only [entryCorrectionStep, corrMatchesKey, hq, if_false, Bool.false_eq_true]
      exact congrArg Except.ok (List.map_id m).symm
    | bool b =>
      simp only [entryCorrectionStep, corrMatchesKey, hq, if_false, Bool.false_eq_true]
      exact congrArg Except.ok (List.map_id m).symm
    | num n =>
      simp only [entryCorrectionStep, corrMatchesKey, hq, if_false, Bool.false_eq_true]
      exact congrArg Except.ok (List.map_id m).symm
    | arr items => rw [qidHashable, hq] at h; exact absurd h (by simp)
    | obj kvs => rw [qidHashable, hq] at h; exact absurd h (by simp)
    | str qid =>
      by_cases hc : assocContains m qid
      · simp only [hc, if_true, dictModify, entryCorrectionStep, corrMatchesKey, hq]
      · simp only [hc, Bool.false_eq_true, if_false]
        have hall : ∀ e ∈ m, (e.1 == qid) = false := by
          intro e he
          by_contra hne
          refine absurd ?_ hc
          exact List.any_eq_true.mpr ⟨e, he, by simpa using hne⟩
        refine congrArg Except.ok (Eq.symm ?_)
        have : ∀ e ∈ m, ((e.1, entryCorrectionStep correction e.1 e.2) : String × AnswerRecord) = e := by
          intro e he
          simp [entryCorrectionStep, corrMatchesKey, hq, hall e he]
        calc m.map (fun e => (e.1, entryCorrectionStep correction e.1 e.2))
            = m.map id := List.map_congr_left this
          _ = m := List.map_id m

/-- Folding the last-match accumulator from an arbitrary start. -/
theorem corr_foldl_last (cs : List CorrectionDict) (k : String) :
    ∀ init : Option CorrectionDict,
      cs.foldl (fun acc c => if corrMatchesKey c k then some c else acc) init =
        match lastMatchingCorrection cs k with
        | some c => some c
        | none => init := by
  induction cs with
  | nil => intro init; simp [lastMatchingCorrection]
  | cons c rest ih =>
    intro init
    have hlast : lastMatchingCorrection (c :: rest) k =
        rest.foldl (fun acc c2 => if corrMatchesKey c2 k then some c2 else acc)
          (if corrMatchesKey c k then some c else none) := by
      simp [lastMatchingCorrection]
    rw [List.foldl_cons, ih, hlast, ih]
    cases hlm : lastMatchingCorrection rest k with
    | some c2 => rfl
    | none => by_cases hm : corrMatchesKey c k <;> simp [hm]

/-- The entrywise action of a correction list is fully determined by the
last correction targeting the key. -/
theorem entryCorrectionFold_eq_lastMatch (cs : List CorrectionDict) (k : String) :
    ∀ r, entryCorrectionFold cs k r =
      match lastMatchingCorrection cs k with
      | some c => applyCorrectionFields r c
      | none => r := by
  induction cs with
  | nil => intro r; simp [entryCorrectionFold, lastMatchingCorrection]
  | cons c rest ih =>
    intro r
    have hlast : lastMatchingCorrection (c :: rest) k =
        rest.foldl (fun acc c2 => if corrMatchesKey c2 k then some c2 else acc)
          (if corrMatchesKey c k then some c else none) := by
      simp [lastMatchingCorrection]
    have hstep : entryCorrectionFold (c :: rest) k r =
        entryCorrectionFold rest k (entryCorrectionStep c k r) := by
      simp [entryCorrectionFold]
    rw [hstep, ih, hlast, corr_foldl_last]
    cases hlm : lastMatchingCorrection rest k with
    | some c2 =>
      by_cases hm : corrMatchesKey c k
      · simp [entryCorrectionStep, hm, applyCorrectionFields_overwrite]
      · simp [entryCorrectionStep, hm]
    | none =>
      by_cases hm : corrMatchesKey c k
      · simp [entryCorrectionStep, hm]
      · simp [entryCorrectionStep, hm]

theorem entryCorrectionFold_idem (cs : List CorrectionDict) (k : String) (r : AnswerRecord) :
    entryCorrectionFold cs k (entryCorrectionFold cs k r) = entryCorrectionFold cs k r := by
  rw [entryCorrectionFold_eq_lastMatch, entryCorrectionFold_eq_lastMatch]
  cases lastMatchingCorrection cs k with
  | some c => simp [applyCorrectionFields_overwrite]
  | none => rfl

theorem entryCorrectionFold_question_id (cs : List CorrectionDict) (k : String)
    (r : AnswerRecord) :
    (entryCorrectionFold cs k r).question_id = r.question_id := by
  rw [entryCorrectionFold_eq_lastMatch]
  cases lastMatchingCorrection cs k with
  | some c => exact applyCorrectionFields_question_id r c
  | none => rfl

/-- When every correction has a hashable `question_id`, the loop succeeds
and acts entrywise on the map. -/
theorem applyCorrectionsLoop_ok (cs : List CorrectionDict) :
    ∀ m, (∀ c ∈ cs, qidHashable c = true) →
      applyCorrectionsLoop m cs =
        Except.ok (m.map (fun e => (e.1, entryCorrectionFold cs e.1 e.2))) := by
  induction cs with
  | nil =>
    intro m _
    simp only [applyCorrectionsLoop, entryCorrectionFold, List.foldl_nil]
    exact congrArg Except.ok (List.map_id m).symm
  | cons c rest ih =>
    intro m hall
    have hc : qidHashable c = true := hall c (List.mem_cons_self _ _)
    simp only [applyCorrectionsLoop]
    rw [correctionStep_ok m c hc]
    show applyCorrectionsLoop (m.map (fun e => (e.1, entryCorrectionStep c e.1 e.2))) rest = _
    rw [ih (m.map (fun e => (e.1, entryCorrectionStep c e.1 e.2)))
      (fun c2 h2 => hall c2 (List.mem_cons_of_mem c h2))]
    rw [List.map_map]
    rfl

/-- A successful loop implies every correction's id was hashable. -/
theorem applyCorrectionsLoop_ok_hashable (cs : List CorrectionDict) :
    ∀ m m', applyCorrectionsLoop m cs = Except.ok m' →
      ∀ c ∈ cs, qidHashable c = true := by
  induction cs with
  | nil => intro m m' _ c hc; cases hc
  | cons c rest ih =>
    intro m m' hok c2 hc2
    simp only [applyCorrectionsLoop] at hok
    cases hstep : correctionStep m c with
    | error e => rw [hstep] at hok; exact absurd hok (by simp)
    | ok m2 =>
      rw [hstep] at hok
      rcases List.mem_cons.mp hc2 with rfl | h2
      · unfold correctionStep at hstep
        cases hq : pyDictGet c2 "question_id" with
        | none => simp [qidHashable, hq]
        | some j =>
          cases j with
          | arr items => rw [hq] at hstep; exact absurd hstep (by simp)
          | obj kvs => rw [hq] at hstep; exact absurd hstep (by simp)
          | null => simp [qidHashable, hq]
          | bool b => simp [qidHashable, hq]
          | num n => simp [qidHashable, hq]
          | str s => simp [qidHashable, hq]
      · exact ih m2 m' hok c2 h2

theorem assocContains_iff {α : Type} (m : List (String × α)) (k : String) :
    assocContains m k = true ↔ k ∈ m.map (fun e => e.1) := by
  unfold assocContains
  rw [List.any_eq_true]
  constructor
  · rintro ⟨e, he, hbeq⟩
    have heq : e.1 = k := by simpa using hbeq
    exact heq ▸ List.mem_map_of_mem _ he
  · intro hk
    obtain ⟨e, he, rfl⟩ := List.mem_map.mp hk
    exact ⟨e, he, by simp⟩

theorem assocContains_eq_false_iff {α : Type} (m : List (String × α)) (k : String) :
    assocContains m k = false ↔ k ∉ m.map (fun e => e.1) := by
  rw [← assocContains_iff]
  cases assocContains m k <;> simp

theorem dictAssign_keys {α : Type} (m : List (String × α)) (k : String) (v : α) :
    (dictAssign m k v).map (fun e => e.1) =
      if assocContains m k then m.map (fun e => e.1) else m.map (fun e => e.1) ++ [k] := by
  unfold dictAssign
  by_cases hc : assocContains m k <;> simp [hc, List.map_map]

/-- The dict comprehension's fold keeps the accumulator's key invariants:
distinct keys and each record stored under its own question id. -/
theorem buildAnswersMap_foldl_invariant (l : List AnswerRecord) :
    ∀ acc : List (String × AnswerRecord),
      ((acc.map (fun e => e.1)).Nodup ∧ ∀ e ∈ acc, e.2.question_id = e.1) →
      (((l.foldl (fun m ans => dictAssign m ans.question_id ans) acc).map
          (fun e => e.1)).Nodup ∧
        ∀ e ∈ l.foldl (fun m ans => dictAssign m ans.question_id ans) acc,
          e.2.question_id = e.1) := by
  induction l with
  | nil => intro acc h; simpa using h
  | cons a t ih =>
    intro acc h
    rw [List.foldl_cons]
    refine ih (dictAssign acc a.question_id a) ⟨?_, ?_⟩
    · rw [dictAssign_keys]
      by_cases hc : assocContains acc a.question_id
      · simpa [hc] using h.1
      · simp only [hc, Bool.false_eq_true, if_false]
        rw [List.nodup_append]
        refine ⟨h.1, List.nodup_singleton _, ?_⟩
        intro x hx hx2
        rw [List.mem_singleton] at hx2
        rw [hx2] at hx
        exact (assocContains_eq_false_iff acc a.question_id).mp (by simpa using hc) hx
    · intro e he
      unfold dictAssign at he
      by_cases hc : assocContains acc a.question_id
      · rw [if_pos hc] at he
        obtain ⟨e0, he0, rfl⟩ := List.mem_map.mp he
        by_cases heq : (e0.1 == a.question_id) = true
        · have heq' : e0.1 = a.question_id := by simpa using heq
          simp only [heq, if_true]
          exact heq'.symm
        · simp only [heq, Bool.false_eq_true, if_false]
          exact h.2 e0 he0
      · rw [if_neg hc] at he
        rcases List.mem_append.mp he with h1 | h1
        · exact h.2 e h1
        · rw [List.mem_singleton] at h1
          subst h1
          rfl

theorem buildAnswersMap_invariant (l : List AnswerRecord) :
    (((buildAnswersMap l).map (fun e => e.1)).Nodup ∧
      ∀ e ∈ buildAnswersMap l, e.2.question_id = e.1) :=
  buildAnswersMap_foldl_invariant l [] ⟨List.nodup_nil, fun e he => absurd he (List.not_mem_nil e)⟩

/-- Rebuilding the map from its own values gives the map back, whenever the
keys are distinct and each record sits under its own id. -/
theorem buildAnswersMap_of_entries (m : List (String × AnswerRecord))
    (hkeys : (m.map (fun e => e.1)).Nodup)
    (hco : ∀ e ∈ m, e.2.question_id = e.1) :
    buildAnswersMap (m.map (fun e => e.2)) = m := by
  have hmapeq : m.map (fun e => e.2.question_id) = m.map (fun e => e.1) :=
    List.map_congr_left (fun e he => hco e he)
  have hidnodup : ((m.map (fun e => e.2)).map (fun r => r.question_id)).Nodup := by
    rw [List.map_map]
    have : (m.map fun e => (fun r => r.question_id) ∘ (fun e => e.2) <| e) =
        m.map (fun e => e.1) := hmapeq
    rw [this]
    exact hkeys
  rw [buildAnswersMap_eq_of_nodup _ hidnodup, List.map_map]
  have hptwise : ∀ e ∈ m,
      ((fun e : String × AnswerRecord => (e.2.question_id, e.2)) e) = e := by
    intro e he
    show (e.2.question_id, e.2) = e
    rw [hco e he]
  calc m.map ((fun r : AnswerRecord => (r.question_id, r)) ∘ (fun e => e.2))
      = m.map id := List.map_congr_left hptwise
    _ = m := List.map_id m

theorem buildAnswersMap_foldl_mem_keys (l : List AnswerRecord) :
    ∀ (acc : List (String × AnswerRecord)) (k : String),
      (k ∈ (l.foldl (fun m ans => dictAssign m ans.question_id ans) acc).map (fun e => e.1) ↔
        k ∈ acc.map (fun e => e.1) ∨ k ∈ l.map (fun r => r.question_id)) := by
  induction l with
  | nil => intro acc k; simp
  | cons a t ih =>
    intro acc k
    rw [List.foldl_cons, ih, dictAssign_keys]
    by_cases hc : assocContains acc a.question_id
    · have hmem : a.question_id ∈ acc.map (fun e => e.1) := (assocContains_iff acc _).mp hc
      simp only [hc, if_true, List.map_cons, List.mem_cons]
      constructor
      · rintro (h1 | h1)
        · exact Or.inl h1
        · exact Or.inr (Or.inr h1)
      · rintro (h1 | h1 | h1)
        · exact Or.inl h1
        · exact Or.inl (h1 ▸ hmem)
        · exact Or.inr h1
    · simp only [hc, Bool.false_eq_true, if_false, List.mem_append, List.mem_singleton,
        List.map_cons, List.mem_cons]
      tauto

theorem buildAnswersMap_mem_keys (l : List AnswerRecord) (k : String) :
    k ∈ (buildAnswersMap l).map (fun e => e.1) ↔ k ∈ l.map (fun r => r.question_id) := by
  have := buildAnswersMap_foldl_mem_keys l [] k
  simpa [buildAnswersMap] using this

/-! ### Claim C8: reapplying the same corrections is idempotent -/

/-- Claim C8: if `apply_corrections` succeeds, applying the same correction
list to its output returns the output unchanged, so for every question id
the final `answer`, `status` and `correction_reason` agree with a single
application. -/
theorem apply_corrections_idempotent (original : List AnswerRecord)
    (corrections_list : List CorrectionDict) (product_name : String)
    (out : List AnswerRecord)
    (h : apply_corrections original corrections_list product_name = Except.ok out) :
    apply_corrections out corrections_list product_name = Except.ok out := by
  unfold apply_corrections at h ⊢
  cases hloop : applyCorrectionsLoop (buildAnswersMap original) corrections_list with
  | error e => rw [hloop] at h; exact absurd h (by simp)
  | ok m' =>
    rw [hloop] at h
    have hout : m'.map (fun e => e.2) = out := by
      have := h
      simp only [Except.ok.injEq] at this
      exact this
    have hhash : ∀ c ∈ corrections_list, qidHashable c = true :=
      applyCorrectionsLoop_ok_hashable corrections_list (buildAnswersMap original) m' hloop
    have hinv := buildAnswersMap_invariant original
    have hm' : m' = (buildAnswersMap original).map
        (fun e => (e.1, entryCorrectionFold corrections_list e.1 e.2)) := by
      have hok := applyCorrectionsLoop_ok corrections_list (buildAnswersMap original) hhash
      have := hloop.symm.trans hok
      simpa only [Except.ok.injEq] using this
    have hkeys' : (m'.map (fun e => e.1)).Nodup := by
      rw [hm', List.map_map]
      have : ((buildAnswersMap original).map
          ((fun e : String × AnswerRecord => e.1) ∘
            (fun e => (e.1, entryCorrectionFold corrections_list e.1 e.2)))) =
          (buildAnswersMap original).map (fun e => e.1) := rfl
      rw [this]
      exact hinv.1
    have hco' : ∀ e ∈ m', e.2.question_id = e.1 := by
      rw [hm']
      intro e he
      obtain ⟨e0, he0, rfl⟩ := List.mem_map.mp he
      simpa [entryCorrectionFold_question_id] using hinv.2 e0 he0
    subst hout
    rw [buildAnswersMap_of_entries m' hkeys' hco']
    rw [applyCorrectionsLoop_ok corrections_list m' hhash]
    refine congrArg Except.ok ?_
    rw [List.map_map]
    refine List.map_congr_left ?_
    intro e he
    have hq : e.2.question_id = e.1 := hco' e he
    show (entryCorrectionFold corrections_list e.1 e.2) = e.2
    rw [hm'] at he
    obtain ⟨e0, he0, rfl⟩ := List.mem_map.mp he
    exact entryCorrectionFold_idem corrections_list e0.1 e0.2

/-- Compact builder for a corrected `AnswerRecord`, used in concrete
instantiations. -/
def mkCorrectedRecord (qid qtext ans cat : String) (reason : Json) : AnswerRecord :=
  { question_id := qid, question_text := qtext, answer := ans,
    category := cat, status := "corrected", correction_reason := some reason }

/-- Witness for C8 at a one-record original and a single correction. -/
theorem apply_corrections_idempotent_witness :
    apply_corrections [mkRecord "q1" "t" "a" "c" "raw"]
        [[("question_id", Json.str "q1"), ("original_answer", Json.str "a"),
          ("suggested_correction", Json.str "b"), ("reason", Json.str "because")]] "P" =
      Except.ok [mkCorrectedRecord "q1" "t" "b" "c" (Json.str "because")] ∧
    apply_corrections [mkCorrectedRecord "q1" "t" "b" "c" (Json.str "because")]
        [[("question_id", Json.str "q1"), ("original_answer", Json.str "a"),
          ("suggested_correction", Json.str "b"), ("reason", Json.str "because")]] "P" =
      Except.ok [mkCorrectedRecord "q1" "t" "b" "c" (Json.str "because")] :=
  ⟨rfl,
   apply_corrections_idempotent [mkRecord "q1" "t" "a" "c" "raw"]
     [[("question_id", Json.str "q1"), ("original_answer", Json.str "a"),
       ("suggested_correction", Json.str "b"), ("reason", Json.str "because")]] "P"
     [mkCorrectedRecord "q1" "t" "b" "c" (Json.str "because")] rfl⟩

/-! ### Claim C9: the question-id set is preserved -/

/-- Claim C9: whenever every correction's `question_id` is a usable dict key
(as the data model's string-typed CorrectionSuggestion guarantees),
`apply_corrections` returns an output whose set of question ids equals the
original's; corrections targeting unknown ids never create records. -/
theorem apply_corrections_preserves_id_set (original : List AnswerRecord)
    (corrections_list : List CorrectionDict) (product_name : String)
    (hhash : ∀ c ∈ corrections_list, qidHashable c = true) :
    ∃ out, apply_corrections original corrections_list product_name = Except.ok out ∧
      ∀ qid, qid ∈ out.map (fun r => r.question_id) ↔
        qid ∈ original.map (fun r => r.question_id) := by
  have hloop := applyCorrectionsLoop_ok corrections_list (buildAnswersMap original) hhash
  have hinv := buildAnswersMap_invariant original
  refine ⟨((buildAnswersMap original).map
      (fun e => (e.1, entryCorrectionFold corrections_list e.1 e.2))).map (fun e => e.2),
    ?_, ?_⟩
  · unfold apply_corrections
    rw [hloop]
  · intro qid
    have hids : ((((buildAnswersMap original).map
        (fun e => (e.1, entryCorrectionFold corrections_list e.1 e.2))).map
          (fun e => e.2)).map (fun r => r.question_id)) =
        (buildAnswersMap original).map (fun e => e.1) := by
      rw [List.map_map, List.map_map]
      refine List.map_congr_left ?_
      intro e he
      show (entryCorrectionFold corrections_list e.1 e.2).question_id = e.1
      rw [entryCorrectionFold_question_id]
      exact hinv.2 e he
    rw [hids]
    exact buildAnswersMap_mem_keys original qid

/-- Witness for C9 at a correction targeting an id absent from the
original. -/
theorem apply_corrections_preserves_id_set_witness :
    (∀ c ∈ [[("question_id", Json.str "zz"), ("original_answer", Json.str "a"),
        ("suggested_correction", Json.str "x"), ("reason", Json.str "r")]],
      qidHashable c = true) ∧
    ∃ out, apply_corrections [mkRecord "q1" "t" "a" "c" "raw"]
        [[("question_id", Json.str "zz"), ("original_answer", Json.str "a"),
          ("suggested_correction", Json.str "x"), ("reason", Json.str "r")]] "P" =
        Except.ok out ∧
      ∀ qid, qid ∈ out.map (fun r => r.question_id) ↔
        qid ∈ [mkRecord "q1" "t" "a" "c" "raw"].map (fun r => r.question_id) :=
  ⟨by decide,
   apply_corrections_preserves_id_set [mkRecord "q1" "t" "a" "c" "raw"]
     [[("question_id", Json.str "zz"), ("original_answer", Json.str "a"),
       ("suggested_correction", Json.str "x"), ("reason", Json.str "r")]] "P" (by decide)⟩

/-! ### Claim C10: the self-correction parse contract -/

/-- Counterexample to C10 as stated: the accepted response
`["corrections", 0]` parses to an array with no top-level "corrections"
key, so the claim requires a Failure return, but the code raises an
uncaught `TypeError` instead of returning at all. -/
theorem self_correct_array_response_counterexample :
    self_correct_answers (fun _ => some "doc text")
        (fun _ _ => some "[\"corrections\", 0]") "P" [] =
      Except.error "list indices must be integers or slices, not str" ∧
    self_correct_answers (fun _ => some "doc text")
        (fun _ _ => some "[\"corrections\", 0]") "P" [] ≠ Except.ok none := by
  refine ⟨rfl, ?_⟩
  intro hcontra
  rw [show self_correct_answers (fun _ => some "doc text")
      (fun _ _ => some "[\"corrections\", 0]") "P" [] =
      Except.error "list indices must be integers or slices, not str" from rfl] at hcontra
  exact absurd hcontra (by simp)

/-- Claim C10, amended (restricted to responses parsing to a JSON object,
where the claim holds exactly): a missing "corrections" key or a non-array
value yields Failure, and an array value yields exactly the array filtered
to items carrying all four required fields — an empty filtered list being a
success, not a Failure. -/
theorem self_correct_object_response_contract (getMarkdown : String → Option String)
    (gw : ReviewGateway) (product_name md : String)
    (extracted_answers : List AnswerRecord) (s : String) (kvs : List (String × Json))
    (hmd : getMarkdown product_name = some md)
    (hne : (md == "") = false)
    (hr : _call_llm_with_retry ((List.range MAX_LLM_RETRIES).map
        (gw { product_name := product_name,
              truncated_markdown := _truncate_markdown md product_name,
              answers_str := answersStr extracted_answers })) = some s)
    (hj : json_loads (pyStrip (cleanFences s)) = some (Json.obj kvs)) :
    (jsonObjGet kvs "corrections" = none →
      self_correct_answers getMarkdown gw product_name extracted_answers = Except.ok none) ∧
    (∀ items, jsonObjGet kvs "corrections" = some (Json.arr items) →
      self_correct_answers getMarkdown gw product_name extracted_answers =
        Except.ok (some (items.filter isValidCorrectionItem))) ∧
    (∀ v, jsonObjGet kvs "corrections" = some v → (∀ items, v ≠ Json.arr items) →
      self_correct_answers getMarkdown gw product_name extracted_answers = Except.ok none) := by
  have hbase : self_correct_answers getMarkdown gw product_name extracted_answers =
      self_correct_parse (Json.obj kvs) := by
    simp only [self_correct_answers, hmd, hne, Bool.false_eq_true, if_false]
    rw [hr]
    show (match json_loads (pyStrip (cleanFences s)) with
      | none => Except.ok none
      | some review_data => self_correct_parse review_data) = self_correct_parse (Json.obj kvs)
    rw [hj]
  refine ⟨?_, ?_, ?_⟩
  · intro hget
    rw [hbase]
    simp [self_correct_parse, pyContainsStr, hget]
  · intro items hget
    rw [hbase]
    simp [self_correct_parse, pyContainsStr, pySubscriptStr, hget]
  · intro v hget hnarr
    rw [hbase]
    cases v with
    | arr items => exact absurd rfl (hnarr items)
    | null => simp [self_correct_parse, pyContainsStr, pySubscriptStr, hget]
    | bool b => simp [self_correct_parse, pyContainsStr, pySubscriptStr, hget]
    | num n => simp [self_correct_parse, pyContainsStr, pySubscriptStr, hget]
    | str s2 => simp [self_correct_parse, pyContainsStr, pySubscriptStr, hget]
    | obj kvs2 => simp [self_correct_parse, pyContainsStr, pySubscriptStr, hget]

set_option maxRecDepth 8192 in
/-- Witness for the amended C10 at an object response whose corrections
array holds one valid item and one malformed item. -/
theorem self_correct_object_response_contract_witness :
    json_loads (pyStrip (cleanFences "\x7b\"corrections\": [\x7b\"question_id\": \"q1\", \"original_answer\": \"a\", \"suggested_correction\": \"b\", \"reason\": \"r\"\x7d, 5]\x7d")) =
      some (Json.obj [("corrections", Json.arr
        [Json.obj [("question_id", Json.str "q1"), ("original_answer", Json.str "a"),
          ("suggested_correction", Json.str "b"), ("reason", Json.str "r")],
         Json.num 5])]) ∧
    self_correct_answers (fun _ => some "doc")
        (fun _ _ => some "\x7b\"corrections\": [\x7b\"question_id\": \"q1\", \"original_answer\": \"a\", \"suggested_correction\": \"b\", \"reason\": \"r\"\x7d, 5]\x7d")
        "P" [] =
      Except.ok (some [Json.obj [("question_id", Json.str "q1"),
        ("original_answer", Json.str "a"), ("suggested_correction", Json.str "b"),
        ("reason", Json.str "r")]]) :=
  ⟨rfl,
   (self_correct_object_response_contract (fun _ => some "doc")
     (fun _ _ => some "\x7b\"corrections\": [\x7b\"question_id\": \"q1\", \"original_answer\": \"a\", \"suggested_correction\": \"b\", \"reason\": \"r\"\x7d, 5]\x7d")
     "P" "doc" []
     "\x7b\"corrections\": [\x7b\"question_id\": \"q1\", \"original_answer\": \"a\", \"suggested_correction\": \"b\", \"reason\": \"r\"\x7d, 5]\x7d"
     [("corrections", Json.arr
       [Json.obj [("question_id", Json.str "q1"), ("original_answer", Json.str "a"),
         ("suggested_correction", Json.str "b"), ("reason", Json.str "r")],
        Json.num 5])]
     rfl rfl rfl rfl).2.1
     [Json.obj [("question_id", Json.str "q1"), ("original_answer", Json.str "a"),
       ("suggested_correction", Json.str "b"), ("reason", Json.str "r")],
      Json.num 5] rfl⟩
